import Mathlib

/-!
Shallow embedding of the file-encryption engine of `git-simple-encrypt`
(`src/crypt.rs`), together with a model of the repository orchestrator
(`encrypt_repo` / `decrypt_repo`).

Bytes are modelled as natural numbers and byte strings as `List Nat`.
File contents are `List Nat`; a file that cannot be opened or read is
`none : Option (List Nat)`.

The external cryptographic and compression primitives (the `aes_gcm_siv`,
`hkdf` and `zstd` crates) are not part of this repository; they are
modelled as an abstract record of functions (`Crypto`), and theorems take
the library guarantees they need (AEAD round trip, AEAD rejection, zstd
round trip) as explicit hypotheses at the points where the code relies on
them.  The OS random generator (`rand::rng().fill_bytes`) is modelled as a
byte stream `rng : Nat → Nat`; one call to `encrypt_file` consumes the
first 16 bytes for the salt and the next 12 for the nonce, exactly in the
order `FileHeader::new` fills them.
-/

namespace GitSimpleEncrypt

/-- `const MAGIC: &[u8; 5] = b"GITSE"` -/
def MAGIC : List Nat := [71, 73, 84, 83, 69]

/-- `const VERSION: u8 = 2` -/
def VERSION : Nat := 2

/-- `const FLAG_COMPRESSED: u8 = 1 << 0` -/
def FLAG_COMPRESSED : Nat := 1

/-- `const SALT_LEN: usize = 16` -/
def SALT_LEN : Nat := 16

/-- `const NONCE_LEN: usize = 12` -/
def NONCE_LEN : Nat := 12

/-- `const HEADER_LEN = MAGIC.len() + 1 + 1 + SALT_LEN + NONCE_LEN` -/
def HEADER_LEN : Nat := MAGIC.length + 1 + 1 + SALT_LEN + NONCE_LEN

/-- The `FileHeader` struct of `src/crypt.rs`. -/
structure FileHeader where
  version : Nat
  flags : Nat
  salt : List Nat
  nonce : List Nat
deriving DecidableEq, Repr

/-- Errors produced by `FileHeader::read` (`anyhow` errors in the Rust
source): failed `read_exact`/`read_u8` (truncated input), bad magic
bytes, unsupported version byte. -/
inductive FormatError where
  | truncated : FormatError
  | badMagic : FormatError
  | unsupportedVersion : Nat → FormatError
deriving DecidableEq, Repr

/-- The salt drawn by `FileHeader::new`: the first `SALT_LEN` bytes that
`rng.fill_bytes` takes from the random stream. -/
def freshSalt (rng : Nat → Nat) : List Nat :=
  (List.range SALT_LEN).map rng

/-- The nonce drawn by `FileHeader::new`: the next `NONCE_LEN` bytes of
the random stream, after the salt. -/
def freshNonce (rng : Nat → Nat) : List Nat :=
  (List.range NONCE_LEN).map (fun i => rng (SALT_LEN + i))

/-- `FileHeader::new(compressed)`: fresh random salt and nonce, version
`VERSION`, flag bit 0 set iff the payload was compressed. -/
def FileHeader.new (rng : Nat → Nat) (compressed : Bool) : FileHeader :=
  { version := VERSION
    flags := if compressed then FLAG_COMPRESSED else 0
    salt := freshSalt rng
    nonce := freshNonce rng }

/-- `FileHeader::write`: magic, version, flags, salt, nonce, in that
order, no padding. -/
def FileHeader.write (h : FileHeader) : List Nat :=
  MAGIC ++ [h.version, h.flags] ++ h.salt ++ h.nonce

/-- `FileHeader::read`: parse a header from the front of `input`,
returning the header together with the bytes after it (the Rust code
keeps reading the same cursor, so the leftover suffix is the
ciphertext).  Error order follows the source: magic `read_exact`
(truncation), magic comparison, version `read_u8`, version comparison,
then flags / salt / nonce reads (all truncation). -/
def FileHeader.read (input : List Nat) : Except FormatError (FileHeader × List Nat) :=
  if input.length < MAGIC.length then .error .truncated
  else if input.take MAGIC.length ≠ MAGIC then .error .badMagic
  else if input.length < MAGIC.length + 1 then .error .truncated
  else
    let version := input.getD MAGIC.length 0
    if version ≠ VERSION then .error (.unsupportedVersion version)
    else if input.length < HEADER_LEN then .error .truncated
    else
      .ok ({ version := version
             flags := input.getD (MAGIC.length + 1) 0
             salt := (input.drop (MAGIC.length + 2)).take SALT_LEN
             nonce := (input.drop (MAGIC.length + 2 + SALT_LEN)).take NONCE_LEN },
           input.drop HEADER_LEN)

/-- `FileHeader::is_compressed`: `(flags & FLAG_COMPRESSED) != 0`. -/
def FileHeader.is_compressed (h : FileHeader) : Bool :=
  h.flags &&& FLAG_COMPRESSED ≠ 0

/-- `is_encrypted(path)`: open the file (`none` models a file that
cannot be opened), `read_exact` a 5-byte buffer (fails iff the file is
shorter than 5 bytes), compare with the magic.  Any failure yields
`false`, never an error. -/
def is_encrypted (file : Option (List Nat)) : Bool :=
  match file with
  | none => false
  | some c => if c.length < MAGIC.length then false else c.take MAGIC.length == MAGIC

/-- `is_encrypted` on the contents of a file that does open and read. -/
def is_encrypted_bytes (c : List Nat) : Bool :=
  is_encrypted (some c)

/-- The external primitives used by `src/crypt.rs`: HKDF-SHA256 key
derivation (`derive_key` wraps it), AES-256-GCM-SIV encrypt/decrypt
(`aead_dec` returns `none` on an authentication failure), and the zstd
codec (`zstd_dec` returns `none` on a corrupt stream).  These live in
external crates, not in this repository, so they are parameters of the
model. -/
structure Crypto where
  hkdf : List Nat → List Nat → List Nat
  aead_enc : List Nat → List Nat → List Nat → List Nat
  aead_dec : List Nat → List Nat → List Nat → Option (List Nat)
  zstd_enc : Nat → List Nat → List Nat
  zstd_dec : List Nat → Option (List Nat)

/-- `derive_key(master_key, salt)`: HKDF-SHA256 with the salt as HKDF
salt, the master key as input key material. -/
def derive_key (C : Crypto) (master_key salt : List Nat) : List Nat :=
  C.hkdf master_key salt

/-- `try_compress(data, level)`: data shorter than 50 bytes is returned
unchanged with the flag clear; otherwise the zstd-compressed form is
kept, with the flag set, exactly when it is strictly smaller than the
input. -/
def try_compress (C : Crypto) (data : List Nat) (level : Nat) : List Nat × Bool :=
  if data.length < 50 then (data, false)
  else
    let compressed := C.zstd_enc level data
    if compressed.length < data.length then (compressed, true) else (data, false)

/-- `try_decompress(data, compressed)`: decode when the flag is set
(`none` models the `Err` on a corrupt stream), identity otherwise. -/
def try_decompress (C : Crypto) (data : List Nat) (compressed : Bool) : Option (List Nat) :=
  if compressed then C.zstd_dec data else some data

/-- Errors of the per-file pipeline (`anyhow` errors in the source):
reading the file failed, corrupt header when decrypting, AEAD
authentication failure (`Decryption failed (wrong password?)`),
decompression failure. -/
inductive CryptError where
  | ioError : CryptError
  | corruptHeader : FormatError → CryptError
  | authError : CryptError
  | decompressError : CryptError
deriving DecidableEq, Repr

/-- `encrypt_file` on the contents of the target file.  If the file
already carries the magic, it is returned unchanged (no-op).  Otherwise:
compress, build a fresh header from the random stream, derive the file
key from (master key, salt), AEAD-encrypt, and the new file contents are
header followed by ciphertext. -/
def encrypt_file (C : Crypto) (master_key : List Nat) (zstd_level : Nat)
    (rng : Nat → Nat) (content : List Nat) : List Nat :=
  if is_encrypted_bytes content then content
  else
    let pc := try_compress C content zstd_level
    let header := FileHeader.new rng pc.2
    let file_key := derive_key C master_key header.salt
    let ciphertext := C.aead_enc file_key header.nonce pc.1
    header.write ++ ciphertext

/-- `decrypt_file` on the contents of the target file.  A file without
the magic is skipped: `Ok(None)`, and the file is not touched.
Otherwise parse the header, derive the key from the header's salt,
AEAD-decrypt the bytes after the header, decompress according to flag
bit 0, and the result (`Ok(Some _)`) is the new file contents. -/
def decrypt_file (C : Crypto) (master_key : List Nat) (content : List Nat) :
    Except CryptError (Option (List Nat)) :=
  if ¬ is_encrypted_bytes content then .ok none
  else
    match FileHeader.read content with
    | .error e => .error (.corruptHeader e)
    | .ok (header, ciphertext) =>
      let file_key := derive_key C master_key header.salt
      match C.aead_dec file_key header.nonce ciphertext with
      | none => .error .authError
      | some plaintext_raw =>
        match try_decompress C plaintext_raw header.is_compressed with
        | none => .error .decompressError
        | some final_bytes => .ok (some final_bytes)

/-! ## Repository orchestrator (`encrypt_repo` / `decrypt_repo`)

The git collaborator (`Repo::add_all`, `ls_files`) shells out to `git`;
its success or failure is a parameter of the model (`addAll1`, `addAll2`).
The selected files are a list of `Option (List Nat)`: `none` is a path
whose file cannot be read (e.g. deleted between selection and
processing).  `rayon`'s `par_iter().map(...).collect()` keeps the order
of the input list and runs every element independently, so it is
modelled as `List.map` over the indices.  The model returns the overall
result, the file list after the batch, the per-file errors that were
logged as warnings, and the trace of staging calls made. -/

/-- One staging (`git add -A`) call in the orchestrator's event trace. -/
inductive RepoEv where
  | addAll : RepoEv
deriving DecidableEq, Repr

/-- The per-file step of `encrypt_repo`: `encrypt_file` first reads the
file (`fs::read`), so a missing/unreadable file is a per-file error; on
success the file's new contents are the encryption result. -/
def encryptOne (C : Crypto) (master_key : List Nat) (zstd_level : Nat)
    (rng : Nat → Nat) (file : Option (List Nat)) : Except CryptError (List Nat) :=
  match file with
  | none => .error .ioError
  | some c => .ok (encrypt_file C master_key zstd_level rng c)

/-- `encrypt_repo`: assert the key is non-empty, fail fast on an empty
`crypt_list`, stage (`add_all`, fatal on failure), encrypt every
selected file in parallel collecting each outcome, log failures as
warnings, stage again (fatal on failure).  `rngs i` is the random
stream the worker processing file `i` draws from. -/
def encrypt_repo (C : Crypto) (key : List Nat) (patterns : List String)
    (zstd_level : Nat) (rngs : Nat → Nat → Nat) (addAll1 addAll2 : Bool)
    (files : List (Option (List Nat))) :
    Except String Unit × List (Option (List Nat)) × List CryptError × List RepoEv :=
  if key = [] then (.error "Key must not be empty", files, [], [])
  else if patterns = [] then (.error "No pattern to encrypt", files, [], [])
  else if addAll1 = false then (.error "Git command failed", files, [], [.addAll])
  else
    let results := (List.range files.length).map
      (fun i => encryptOne C key zstd_level (rngs i) (files.getD i none))
    let newFiles := (List.range files.length).map
      (fun i => match results.getD i (.error .ioError) with
        | .ok c => some c
        | .error _ => files.getD i none)
    let warnings := results.filterMap
      (fun r => match r with | .error e => some e | .ok _ => none)
    if addAll2 = false then (.error "Git command failed", newFiles, warnings, [.addAll, .addAll])
    else (.ok (), newFiles, warnings, [.addAll, .addAll])

/-- `decrypt_repo`: assert the key is non-empty, decrypt every selected
path that is (still) a file in parallel, collect outcomes, log failures
as warnings; no staging calls.  A path that is not a file is filtered
out (`filter(|p| p.is_file())`), not an error; a `decrypt_file` that
returns `Ok(None)` (no magic) leaves the file unchanged. -/
def decrypt_repo (C : Crypto) (key : List Nat)
    (files : List (Option (List Nat))) :
    Except String Unit × List (Option (List Nat)) × List CryptError :=
  if key = [] then (.error "Key must not be empty", files, [])
  else
    let results := (List.range files.length).map
      (fun i => (files.getD i none).map (fun c => decrypt_file C key c))
    let newFiles := (List.range files.length).map
      (fun i => match results.getD i none with
        | some (.ok (some x)) => some x
        | _ => files.getD i none)
    let warnings := results.filterMap
      (fun r => match r with | some (.error e) => some e | _ => none)
    (.ok (), newFiles, warnings)

/-! ## Concrete instances of the external primitives

Used by witnesses and counterexamples.  `idCrypto` is a cipher and codec
that satisfy the round-trip laws trivially; `rejCrypto` is a cipher
whose decryption always rejects (as AES-GCM-SIV does, with overwhelming
probability, under a wrong key or on a tampered ciphertext). -/

/-- Identity primitives: encryption and compression are the identity,
decryption and decompression always succeed with the input. -/
def idCrypto : Crypto where
  hkdf := fun _ salt => salt
  aead_enc := fun _ _ pt => pt
  aead_dec := fun _ _ ct => some ct
  zstd_enc := fun _ d => d
  zstd_dec := fun d => some d

/-- Rejecting primitives: AEAD decryption always fails
authentication. -/
def rejCrypto : Crypto where
  hkdf := fun _ salt => salt
  aead_enc := fun _ _ pt => pt
  aead_dec := fun _ _ _ => none
  zstd_enc := fun _ d => d
  zstd_dec := fun d => some d

/-- A codec that compresses the two payloads used by the witnesses down
to their first byte and decompresses exactly those; anything else is a
corrupt stream. -/
def shrinkCrypto : Crypto where
  hkdf := fun _ salt => salt
  aead_enc := fun _ _ pt => pt
  aead_dec := fun _ _ ct => some ct
  zstd_enc := fun _ d => d.take 1
  zstd_dec := fun d =>
    if d = [6] then some (List.replicate 100 6)
    else if d = [1] then some [1, 2, 3, 4, 5, 6]
    else none

/-! ## Helper lemmas -/

theorem freshSalt_length (rng : Nat → Nat) : (freshSalt rng).length = SALT_LEN := by
  simp [freshSalt]

theorem freshNonce_length (rng : Nat → Nat) : (freshNonce rng).length = NONCE_LEN := by
  simp [freshNonce]

theorem FileHeader.new_version (rng : Nat → Nat) (b : Bool) :
    (FileHeader.new rng b).version = VERSION := rfl

theorem FileHeader.new_salt (rng : Nat → Nat) (b : Bool) :
    (FileHeader.new rng b).salt = freshSalt rng := rfl

theorem FileHeader.new_nonce (rng : Nat → Nat) (b : Bool) :
    (FileHeader.new rng b).nonce = freshNonce rng := rfl

theorem FileHeader.new_is_compressed (rng : Nat → Nat) (b : Bool) :
    (FileHeader.new rng b).is_compressed = b := by
  cases b <;> simp [FileHeader.new, FileHeader.is_compressed, FLAG_COMPRESSED]

/-- Reading back a written header recovers every field (any flags byte,
any salt and nonce of the right lengths) and leaves exactly the bytes
that followed the header. -/
theorem FileHeader.read_write (h : FileHeader) (rest : List Nat)
    (hv : h.version = VERSION) (hs : h.salt.length = SALT_LEN)
    (hn : h.nonce.length = NONCE_LEN) :
    FileHeader.read (h.write ++ rest) = .ok (h, rest) := by
  obtain ⟨v, f, salt, nonce⟩ := h
  simp only at hv hs hn
  subst hv
  have hcons : (FileHeader.mk VERSION f salt nonce).write ++ rest
      = 71 :: 73 :: 84 :: 83 :: 69 :: VERSION :: f :: (salt ++ (nonce ++ rest)) := by
    simp [FileHeader.write, MAGIC, List.append_assoc]
  rw [hcons]
  have hlen : (71 :: 73 :: 84 :: 83 :: 69 :: VERSION :: f :: (salt ++ (nonce ++ rest))).length
      = 35 + rest.length := by
    simp [List.length_append, hs, hn, SALT_LEN, NONCE_LEN]
    omega
  simp only [FileHeader.read, hlen, MAGIC, HEADER_LEN, SALT_LEN, NONCE_LEN]
  norm_num
  rw [if_neg (by omega), if_neg (by omega)]
  have hs16 : salt.length = 16 := by simpa [SALT_LEN] using hs
  have hn12 : nonce.length = 12 := by simpa [NONCE_LEN] using hn
  have h28 : List.drop 28 (salt ++ (nonce ++ rest)) = rest := by
    rw [show (28:Nat) = 16 + 12 from rfl, ← List.drop_drop,
      List.drop_left' hs16, List.drop_left' hn12]
  rw [List.take_left' hs16, List.drop_left' hs16, List.take_left' hn12, h28]

theorem is_encrypted_bytes_iff (c : List Nat) :
    is_encrypted_bytes c = true ↔ c.take MAGIC.length = MAGIC := by
  simp only [is_encrypted_bytes, is_encrypted]
  split
  · rename_i hlen
    simp only [Bool.false_eq_true, false_iff]
    intro hc
    have hl := congrArg List.length hc
    simp only [List.length_take] at hl
    simp only [MAGIC, List.length_cons, List.length_nil] at hl hlen
    omega
  · simp [beq_iff_eq]

theorem is_encrypted_write (h : FileHeader) (ct : List Nat) :
    is_encrypted_bytes (h.write ++ ct) = true := by
  rw [is_encrypted_bytes_iff]
  have : h.write ++ ct = MAGIC ++ ([h.version, h.flags] ++ h.salt ++ h.nonce ++ ct) := by
    simp [FileHeader.write, List.append_assoc]
  rw [this, List.take_left]

theorem try_compress_of_small (C : Crypto) (data : List Nat) (level : Nat)
    (h : data.length < 50) : try_compress C data level = (data, false) := by
  simp [try_compress, h]

theorem try_compress_fst_of_compressed (C : Crypto) (data : List Nat) (level : Nat)
    (h : (try_compress C data level).2 = true) :
    (try_compress C data level).1 = C.zstd_enc level data := by
  unfold try_compress at *
  by_cases h50 : data.length < 50
  · simp [h50] at h
  · by_cases hlt : (C.zstd_enc level data).length < data.length
    · simp [h50, hlt]
    · simp [h50, hlt] at h

theorem try_compress_fst_of_uncompressed (C : Crypto) (data : List Nat) (level : Nat)
    (h : (try_compress C data level).2 = false) :
    (try_compress C data level).1 = data := by
  unfold try_compress at *
  by_cases h50 : data.length < 50
  · simp [h50]
  · by_cases hlt : (C.zstd_enc level data).length < data.length
    · simp [h50, hlt] at h
    · simp [h50, hlt]

theorem encrypt_file_of_not_encrypted (C : Crypto) (m : List Nat) (lvl : Nat)
    (rng : Nat → Nat) (c : List Nat) (h : is_encrypted_bytes c = false) :
    encrypt_file C m lvl rng c
      = (FileHeader.new rng (try_compress C c lvl).2).write
        ++ C.aead_enc (derive_key C m (freshSalt rng)) (freshNonce rng)
            (try_compress C c lvl).1 := by
  unfold encrypt_file
  rw [h]
  simp [FileHeader.new, derive_key]

theorem encrypt_file_of_encrypted (C : Crypto) (m : List Nat) (lvl : Nat)
    (rng : Nat → Nat) (c : List Nat) (h : is_encrypted_bytes c = true) :
    encrypt_file C m lvl rng c = c := by
  unfold encrypt_file
  rw [h]
  rfl

theorem decrypt_file_of_not_encrypted (C : Crypto) (m : List Nat) (c : List Nat)
    (h : is_encrypted_bytes c = false) :
    decrypt_file C m c = .ok none := by
  unfold decrypt_file
  rw [h]
  rfl

theorem decrypt_file_write (C : Crypto) (m : List Nat) (h : FileHeader) (ct : List Nat)
    (hv : h.version = VERSION) (hs : h.salt.length = SALT_LEN)
    (hn : h.nonce.length = NONCE_LEN) :
    decrypt_file C m (h.write ++ ct)
      = match C.aead_dec (derive_key C m h.salt) h.nonce ct with
        | none => .error .authError
        | some pt =>
          match try_decompress C pt h.is_compressed with
          | none => .error .decompressError
          | some fb => .ok (some fb) := by
  unfold decrypt_file
  rw [is_encrypted_write, FileHeader.read_write h ct hv hs hn]
  rfl

theorem getD_map_range {α : Type} (n i : Nat) (f : Nat → α) (d : α) (hi : i < n) :
    ((List.range n).map f).getD i d = f i := by
  rw [List.getD_eq_getElem?_getD, List.getElem?_map, List.getElem?_range hi]
  rfl

/-- Decidable equality for `Except`, so concrete pipeline runs can be
checked by `decide`. -/
instance instDecEqExcept {ε α : Type} [DecidableEq ε] [DecidableEq α] :
    DecidableEq (Except ε α) := fun a b =>
  match a, b with
  | .ok x, .ok y =>
    if h : x = y then isTrue (by rw [h]) else isFalse (by intro hc; cases hc; exact h rfl)
  | .error x, .error y =>
    if h : x = y then isTrue (by rw [h]) else isFalse (by intro hc; cases hc; exact h rfl)
  | .ok _, .error _ => isFalse (by intro hc; cases hc)
  | .error _, .ok _ => isFalse (by intro hc; cases hc)

/-- A plaintext that is bit-for-bit a valid envelope: magic, version 2,
flags 0, all-zero salt and nonce, payload byte 7.  Nothing stops a user
file from containing exactly these bytes. -/
def innerEnvelope : List Nat :=
  MAGIC ++ [2, 0] ++ List.replicate 16 0 ++ List.replicate 12 0 ++ [7]

/-- A file whose ciphertext region is itself `innerEnvelope`. -/
def outerEnvelope : List Nat :=
  MAGIC ++ [2, 0] ++ List.replicate 16 0 ++ List.replicate 12 0 ++ innerEnvelope

/-- A plaintext that is bit-for-bit a valid envelope with payload byte
9. -/
def envelopePlain : List Nat :=
  MAGIC ++ [2, 0] ++ List.replicate 16 0 ++ List.replicate 12 0 ++ [9]

/-! ## Claim theorems -/

/-- C4: the envelope codec writes magic, version, flags, salt, nonce in
that fixed order with no padding (5+1+1+16+12 = 35 bytes); reading a
written header returns fields identical to those written, including
reserved flag bits other than bit 0; and read fails with a bad-magic
error if the first 5 bytes differ from the magic, with an
unsupported-version error if the version byte is not the single
supported version, and with a truncation error if fewer bytes than the
fixed header length are available. -/
theorem C4_envelope_codec :
    (∀ h : FileHeader, h.write = MAGIC ++ [h.version, h.flags] ++ h.salt ++ h.nonce)
  ∧ (∀ h : FileHeader, h.salt.length = SALT_LEN → h.nonce.length = NONCE_LEN →
      h.write.length = HEADER_LEN)
  ∧ (∀ (h : FileHeader) (rest : List Nat), h.version = VERSION →
      h.salt.length = SALT_LEN → h.nonce.length = NONCE_LEN →
      FileHeader.read (h.write ++ rest) = .ok (h, rest))
  ∧ (∀ input : List Nat, MAGIC.length ≤ input.length →
      input.take MAGIC.length ≠ MAGIC → FileHeader.read input = .error .badMagic)
  ∧ (∀ input : List Nat, input.take MAGIC.length = MAGIC →
      MAGIC.length + 1 ≤ input.length → input.getD MAGIC.length 0 ≠ VERSION →
      FileHeader.read input = .error (.unsupportedVersion (input.getD MAGIC.length 0)))
  ∧ (∀ input : List Nat, input.length < MAGIC.length →
      FileHeader.read input = .error .truncated)
  ∧ (∀ input : List Nat, input.take MAGIC.length = MAGIC →
      input.length < MAGIC.length + 1 → FileHeader.read input = .error .truncated)
  ∧ (∀ input : List Nat, input.take MAGIC.length = MAGIC →
      input.getD MAGIC.length 0 = VERSION → input.length < HEADER_LEN →
      FileHeader.read input = .error .truncated) := by
  refine ⟨fun h => rfl, ?_, FileHeader.read_write, ?_, ?_, ?_, ?_, ?_⟩
  · intro h hs hn
    simp [FileHeader.write, HEADER_LEN, MAGIC, hs, hn]
    omega
  · intro input hge hne
    unfold FileHeader.read
    rw [if_neg (by omega), if_pos hne]
  · intro input hmag hlen hver
    unfold FileHeader.read
    rw [if_neg (by omega), if_neg (by simp [hmag]), if_neg (by omega), if_pos hver]
  · intro input hlt
    unfold FileHeader.read
    rw [if_pos hlt]
  · intro input hmag hlen
    unfold FileHeader.read
    have : ¬ input.length < MAGIC.length := by
      intro hc
      have hl := congrArg List.length hmag
      simp only [List.length_take] at hl
      omega
    rw [if_neg this, if_neg (by simp [hmag]), if_pos hlen]
  · intro input hmag hver hlen
    unfold FileHeader.read
    have h5 : ¬ input.length < MAGIC.length := by
      intro hc
      have hl := congrArg List.length hmag
      simp only [List.length_take] at hl
      omega
    by_cases h6 : input.length < MAGIC.length + 1
    · rw [if_neg h5, if_neg (by simp [hmag]), if_pos h6]
    · rw [if_neg h5, if_neg (by simp [hmag]), if_neg h6]
      simp only [hver, ne_eq, not_true_eq_false, if_neg, ite_false, if_pos hlen]

/-- C4 witness: a concrete header with all reserved flag bits set (flags
= 255) round-trips bit-for-bit, and each error case fires on a concrete
input. -/
theorem C4_envelope_codec_witness :
    FileHeader.read
        ((FileHeader.mk VERSION 255 (List.replicate 16 7) (List.replicate 12 9)).write
          ++ [1, 2, 3])
      = .ok (FileHeader.mk VERSION 255 (List.replicate 16 7) (List.replicate 12 9), [1, 2, 3])
  ∧ FileHeader.read [1, 2, 3, 4, 5, 6] = .error .badMagic
  ∧ FileHeader.read (MAGIC ++ [9, 0]) = .error (.unsupportedVersion 9)
  ∧ FileHeader.read [71, 73] = .error .truncated
  ∧ FileHeader.read MAGIC = .error .truncated
  ∧ FileHeader.read (MAGIC ++ [2, 0]) = .error .truncated := by
  refine ⟨C4_envelope_codec.2.2.1 _ _ rfl (by simp [SALT_LEN]) (by simp [NONCE_LEN]),
    ?_, ?_, ?_, ?_, ?_⟩
  · exact C4_envelope_codec.2.2.2.1 _ (by decide) (by decide)
  · exact C4_envelope_codec.2.2.2.2.1 _ (by decide) (by decide) (by decide)
  · exact C4_envelope_codec.2.2.2.2.2.1 _ (by decide)
  · exact C4_envelope_codec.2.2.2.2.2.2.1 _ (by decide) (by decide)
  · exact C4_envelope_codec.2.2.2.2.2.2.2 _ (by decide) (by decide) (by decide)

/-- C7: `is_encrypted` depends only on the first 5 bytes of the file,
returns true exactly when they equal the magic, and returns false (never
an error) when the file cannot be opened or is shorter than the magic
length. -/
theorem C7_is_encrypted_probe :
    (∀ c : List Nat, is_encrypted (some c) = is_encrypted (some (c.take MAGIC.length)))
  ∧ (∀ c : List Nat, is_encrypted (some c) = true ↔ c.take MAGIC.length = MAGIC)
  ∧ is_encrypted none = false
  ∧ (∀ c : List Nat, c.length < MAGIC.length → is_encrypted (some c) = false) := by
  refine ⟨?_, fun c => is_encrypted_bytes_iff c, rfl, ?_⟩
  · intro c
    have h₁ := is_encrypted_bytes_iff c
    have h₂ := is_encrypted_bytes_iff (c.take MAGIC.length)
    rw [List.take_take, min_self] at h₂
    unfold is_encrypted_bytes at h₁ h₂
    by_cases hc : c.take MAGIC.length = MAGIC
    · rw [h₁.mpr hc, h₂.mpr hc]
    · have e₁ : is_encrypted (some c) = false := by
        cases hb : is_encrypted (some c)
        · rfl
        · exact absurd (h₁.mp hb) hc
      have e₂ : is_encrypted (some (c.take MAGIC.length)) = false := by
        cases hb : is_encrypted (some (c.take MAGIC.length))
        · rfl
        · exact absurd (h₂.mp hb) hc
      rw [e₁, e₂]
  · intro c hlt
    simp [is_encrypted, hlt]

/-- C7 witness: a file starting with the magic probes true however long
its tail; a 2-byte file and an unreadable file probe false. -/
theorem C7_is_encrypted_probe_witness :
    (is_encrypted (some (MAGIC ++ [0, 0, 0])) = true ↔ (MAGIC ++ [0, 0, 0]).take MAGIC.length = MAGIC)
  ∧ is_encrypted (some [71, 73]) = false
  ∧ is_encrypted none = false := by
  exact ⟨C7_is_encrypted_probe.2.1 _, C7_is_encrypted_probe.2.2.2 _ (by decide),
    C7_is_encrypted_probe.2.2.1⟩

/-- C5: `try_compress` returns the input unchanged with the flag clear
below the 50-byte floor; at or above it, it returns the compressed form
with the flag set exactly when that form is strictly smaller, otherwise
the original bytes with the flag clear; `try_decompress` inverts it
(given the zstd codec round-trip guarantee) and fails on a corrupt
compressed stream. -/
theorem C5_compression_policy (C : Crypto) (data : List Nat) (level : Nat)
    (hrt : C.zstd_dec (C.zstd_enc level data) = some data) :
    (data.length < 50 → try_compress C data level = (data, false))
  ∧ (50 ≤ data.length → (C.zstd_enc level data).length < data.length →
      try_compress C data level = (C.zstd_enc level data, true))
  ∧ (50 ≤ data.length → ¬ (C.zstd_enc level data).length < data.length →
      try_compress C data level = (data, false))
  ∧ try_decompress C (try_compress C data level).1 (try_compress C data level).2
      = some data
  ∧ (∀ corrupt : List Nat, C.zstd_dec corrupt = none →
      try_decompress C corrupt true = none) := by
  refine ⟨fun h => try_compress_of_small C data level h, ?_, ?_, ?_, ?_⟩
  · intro h50 hlt
    simp [try_compress, Nat.not_lt_of_le h50, hlt]
  · intro h50 hlt
    simp [try_compress, Nat.not_lt_of_le h50, hlt]
  · cases hc : (try_compress C data level).2
    · rw [try_compress_fst_of_uncompressed C data level hc]
      rfl
    · rw [try_compress_fst_of_compressed C data level hc]
      simp [try_decompress, hrt]
  · intro corrupt hcor
    simp [try_decompress, hcor]

/-- C5 witness: with a codec that shrinks a 100-byte repetitive payload
to one byte, the payload is compressed (flag set) and round-trips; a
corrupt stream fails; a 6-byte payload is left alone with the flag
clear. -/
theorem C5_compression_policy_witness :
    try_compress shrinkCrypto (List.replicate 100 6) 3 = ([6], true)
  ∧ try_decompress shrinkCrypto
      (try_compress shrinkCrypto (List.replicate 100 6) 3).1
      (try_compress shrinkCrypto (List.replicate 100 6) 3).2
      = some (List.replicate 100 6)
  ∧ try_decompress shrinkCrypto [0] true = none
  ∧ try_compress shrinkCrypto [1, 2, 3, 4, 5, 6] 3 = ([1, 2, 3, 4, 5, 6], false) := by
  have hrt : shrinkCrypto.zstd_dec (shrinkCrypto.zstd_enc 3 (List.replicate 100 6))
      = some (List.replicate 100 6) := by decide
  have h := C5_compression_policy shrinkCrypto (List.replicate 100 6) 3 hrt
  refine ⟨(h.2.1 (by decide) (by decide)).trans (by decide), h.2.2.2.1,
    h.2.2.2.2 _ (by decide), ?_⟩
  have hrt6 : shrinkCrypto.zstd_dec (shrinkCrypto.zstd_enc 3 [1, 2, 3, 4, 5, 6])
      = some [1, 2, 3, 4, 5, 6] := by decide
  exact (C5_compression_policy shrinkCrypto [1, 2, 3, 4, 5, 6] 3 hrt6).1 (by decide)

/-- C1 counterexample: the claim quantifies over every byte string, but
a plaintext that is bit-for-bit a valid envelope is skipped by
`encrypt_file` (the magic probe mistakes it for ciphertext) and then
transformed by `decrypt_file`, so the round trip ends with different
bytes at the path. -/
theorem C1_roundtrip_counterexample :
    encrypt_file idCrypto [1] 3 (fun _ => 0) envelopePlain = envelopePlain
  ∧ decrypt_file idCrypto [1] envelopePlain = .ok (some [9])
  ∧ [9] ≠ envelopePlain := by
  refine ⟨encrypt_file_of_encrypted _ _ _ _ _ (by decide), by decide, by decide⟩

/-- C1 (amended): for every byte string `p` that does not itself begin
with the 5 magic bytes and every non-empty master secret, encrypting and
then decrypting under the same secret restores exactly `p` — given the
zstd codec round-trip guarantee and the AEAD round-trip guarantee at the
derived key, fresh nonce and payload in question. -/
theorem C1_roundtrip (C : Crypto) (master : List Nat) (level : Nat)
    (rng : Nat → Nat) (p : List Nat) (hm : master ≠ [])
    (hp : p.take MAGIC.length ≠ MAGIC)
    (hz : C.zstd_dec (C.zstd_enc level p) = some p)
    (ha : C.aead_dec (derive_key C master (freshSalt rng)) (freshNonce rng)
            (C.aead_enc (derive_key C master (freshSalt rng)) (freshNonce rng)
              (try_compress C p level).1)
          = some (try_compress C p level).1) :
    decrypt_file C master (encrypt_file C master level rng p) = .ok (some p) := by
  have hpe : is_encrypted_bytes p = false := by
    cases hb : is_encrypted_bytes p
    · rfl
    · exact absurd ((is_encrypted_bytes_iff p).mp hb) hp
  rw [encrypt_file_of_not_encrypted C master level rng p hpe]
  rw [decrypt_file_write C master _ _ (FileHeader.new_version rng _)
    (by rw [FileHeader.new_salt]; exact freshSalt_length rng)
    (by rw [FileHeader.new_nonce]; exact freshNonce_length rng)]
  simp only [FileHeader.new_salt, FileHeader.new_nonce, FileHeader.new_is_compressed]
  rw [ha]
  cases hc : (try_compress C p level).2
  · rw [try_compress_fst_of_uncompressed C p level hc]
    rfl
  · rw [try_compress_fst_of_compressed C p level hc]
    simp [try_decompress, hz]

/-- C1 witness: the amended round trip at a concrete plaintext, secret
and random stream. -/
theorem C1_roundtrip_witness :
    decrypt_file idCrypto [1] (encrypt_file idCrypto [1] 3 (fun i => i) [10, 20, 30])
      = .ok (some [10, 20, 30]) :=
  C1_roundtrip idCrypto [1] 3 (fun i => i) [10, 20, 30]
    (by decide) (by decide) rfl rfl

/-- C2: an invocation of `encrypt_file` that actually encrypts draws the
16-byte salt and the 12-byte nonce fresh from the random stream, writes
exactly those into the envelope, and encrypts under the key re-derived
from (master secret, salt); two such invocations whose random draws are
not identical — and whose derived keys differ whenever only the salts
differ (the HKDF guarantee) — never use the same (key, nonce) pair. -/
theorem C2_fresh_salt_nonce (C : Crypto) (m1 m2 : List Nat) (l1 : Nat)
    (r1 r2 : Nat → Nat) (c1 : List Nat)
    (h1 : is_encrypted_bytes c1 = false)
    (hfresh : freshSalt r1 ≠ freshSalt r2 ∨ freshNonce r1 ≠ freshNonce r2)
    (hkdf_inj : freshSalt r1 ≠ freshSalt r2 →
      C.hkdf m1 (freshSalt r1) ≠ C.hkdf m2 (freshSalt r2)) :
    (encrypt_file C m1 l1 r1 c1
       = (FileHeader.new r1 (try_compress C c1 l1).2).write
         ++ C.aead_enc (derive_key C m1 (freshSalt r1)) (freshNonce r1)
             (try_compress C c1 l1).1)
  ∧ (FileHeader.new r1 (try_compress C c1 l1).2).salt = freshSalt r1
  ∧ (FileHeader.new r1 (try_compress C c1 l1).2).nonce = freshNonce r1
  ∧ (freshSalt r1).length = SALT_LEN
  ∧ (freshNonce r1).length = NONCE_LEN
  ∧ (derive_key C m1 (freshSalt r1), freshNonce r1)
      ≠ (derive_key C m2 (freshSalt r2), freshNonce r2) := by
  refine ⟨encrypt_file_of_not_encrypted C m1 l1 r1 c1 h1, rfl, rfl,
    freshSalt_length r1, freshNonce_length r1, ?_⟩
  intro hpair
  have hk := congrArg Prod.fst hpair
  have hn := congrArg Prod.snd hpair
  simp only at hk hn
  cases hfresh with
  | inl hsalt => exact hkdf_inj hsalt hk
  | inr hnon => exact hnon hn

/-- C2 witness: two invocations drawing from different random streams
produce distinct (key, nonce) pairs. -/
theorem C2_fresh_salt_nonce_witness :
    (derive_key idCrypto [1] (freshSalt (fun _ => 0)), freshNonce (fun _ => 0))
      ≠ (derive_key idCrypto [1] (freshSalt (fun _ => 1)), freshNonce (fun _ => 1)) :=
  (C2_fresh_salt_nonce idCrypto [1] [1] 3 (fun _ => 0) (fun _ => 1) [7]
    (by decide) (Or.inl (by decide))
    (fun hs => by simpa [idCrypto] using hs)).2.2.2.2.2

/-- C3: whenever the AEAD rejects (as it does, with overwhelming
probability, under a master secret different from the one used at
encryption or after any flip of a ciphertext byte), `decrypt_file`
surfaces the authentication error for that file and never returns
success — neither wrong plaintext nor an empty result. -/
theorem C3_auth_rejection (C : Crypto) (master content : List Nat)
    (header : FileHeader) (ciphertext : List Nat)
    (henc : is_encrypted_bytes content = true)
    (hread : FileHeader.read content = .ok (header, ciphertext))
    (hrej : C.aead_dec (derive_key C master header.salt) header.nonce ciphertext = none) :
    decrypt_file C master content = .error .authError
  ∧ ∀ res : Option (List Nat), decrypt_file C master content ≠ .ok res := by
  have hmain : decrypt_file C master content = .error .authError := by
    unfold decrypt_file
    rw [henc]
    simp only [not_true_eq_false, if_false, hread, hrej]
  refine ⟨hmain, fun res hok => ?_⟩
  rw [hmain] at hok
  exact Except.noConfusion hok

/-- C3 witness: decrypting a concrete well-formed envelope with a
rejecting AEAD yields the authentication error. -/
theorem C3_auth_rejection_witness :
    decrypt_file rejCrypto [9] envelopePlain = .error .authError :=
  (C3_auth_rejection rejCrypto [9] envelopePlain
    (FileHeader.mk 2 0 (List.replicate 16 0) (List.replicate 12 0)) [9]
    (by decide) (by decide) rfl).1

/-- C6 counterexample: Decrypt twice is not always Decrypt once — when
the recovered plaintext itself begins with the magic (here the file is a
valid envelope whose payload is again a valid envelope), the second
Decrypt is not a no-op and changes the file again. -/
theorem C6_idempotency_counterexample :
    decrypt_file idCrypto [1] outerEnvelope = .ok (some innerEnvelope)
  ∧ decrypt_file idCrypto [1] innerEnvelope = .ok (some [7])
  ∧ decrypt_file idCrypto [1] innerEnvelope ≠ .ok none
  ∧ [7] ≠ innerEnvelope := by
  refine ⟨by decide, by decide, by decide, by decide⟩

/-- C6 (amended): Encrypt on an already-encrypted path is a no-op
returning success with the bytes unchanged, and Encrypt twice equals
Encrypt once; Decrypt on a path without the magic is a no-op returning
"nothing to do"; and Decrypt twice equals Decrypt once provided the
plaintext recovered by the first call does not itself begin with the
magic bytes. -/
theorem C6_idempotency (C : Crypto) (m : List Nat) (lvl : Nat)
    (r1 r2 : Nat → Nat) (c q : List Nat) :
    (is_encrypted_bytes c = true → encrypt_file C m lvl r1 c = c)
  ∧ encrypt_file C m lvl r2 (encrypt_file C m lvl r1 c) = encrypt_file C m lvl r1 c
  ∧ (is_encrypted_bytes c = false → decrypt_file C m c = .ok none)
  ∧ (decrypt_file C m c = .ok (some q) → is_encrypted_bytes q = false →
      decrypt_file C m q = .ok none) := by
  refine ⟨encrypt_file_of_encrypted C m lvl r1 c, ?_,
    decrypt_file_of_not_encrypted C m c, fun _ hq => decrypt_file_of_not_encrypted C m q hq⟩
  cases hc : is_encrypted_bytes c
  · rw [encrypt_file_of_not_encrypted C m lvl r1 c hc]
    exact encrypt_file_of_encrypted C m lvl r2 _ (is_encrypted_write _ _)
  · rw [encrypt_file_of_encrypted C m lvl r1 c hc,
      encrypt_file_of_encrypted C m lvl r2 c hc]

/-- C6 witness: Encrypt twice equals Encrypt once on a concrete
plaintext file; Encrypt is a no-op on a concrete already-encrypted file;
Decrypt is a no-op on a concrete magic-less file; and after a concrete
successful decryption whose result carries no magic, the second Decrypt
reports nothing to do. -/
theorem C6_idempotency_witness :
    encrypt_file idCrypto [1] 3 (fun _ => 5)
        (encrypt_file idCrypto [1] 3 (fun _ => 4) [1, 2, 3])
      = encrypt_file idCrypto [1] 3 (fun _ => 4) [1, 2, 3]
  ∧ encrypt_file idCrypto [1] 3 (fun _ => 4) envelopePlain = envelopePlain
  ∧ decrypt_file idCrypto [1] [1, 2, 3] = .ok none
  ∧ decrypt_file idCrypto [1] [9] = .ok none := by
  refine ⟨(C6_idempotency idCrypto [1] 3 (fun _ => 4) (fun _ => 5) [1, 2, 3] []).2.1,
    (C6_idempotency idCrypto [1] 3 (fun _ => 4) (fun _ => 4) envelopePlain []).1 (by decide),
    (C6_idempotency idCrypto [1] 3 (fun _ => 4) (fun _ => 4) [1, 2, 3] []).2.2.1 (by decide),
    (C6_idempotency idCrypto [1] 3 (fun _ => 4) (fun _ => 4) envelopePlain [9]).2.2.2
      (by decide) (by decide)⟩

/-- C9: `encrypt_repo` and `decrypt_repo` run the per-file pipeline over
every selected path and collect each outcome independently — the batch
returns success with each file's new state a function of that file
alone and failures collected as warnings — while the staging calls
bracketing an encryption batch are fatal: the first aborts before any
file is touched, the second fails the whole batch. -/
theorem C9_batch_isolation (C : Crypto) (key : List Nat) (patterns : List String)
    (lvl : Nat) (rngs : Nat → Nat → Nat) (files : List (Option (List Nat)))
    (hkey : key ≠ []) (hpat : patterns ≠ []) :
    (encrypt_repo C key patterns lvl rngs true true files
       = (.ok (),
          (List.range files.length).map (fun i =>
            match encryptOne C key lvl (rngs i) (files.getD i none) with
            | .ok c => some c
            | .error _ => files.getD i none),
          ((List.range files.length).map
            (fun i => encryptOne C key lvl (rngs i) (files.getD i none))).filterMap
            (fun r => match r with | .error e => some e | .ok _ => none),
          [.addAll, .addAll]))
  ∧ (∀ (files' : List (Option (List Nat))) (i : Nat),
      i < files.length → i < files'.length →
      files.getD i none = files'.getD i none →
      (encrypt_repo C key patterns lvl rngs true true files).2.1.getD i none
        = (encrypt_repo C key patterns lvl rngs true true files').2.1.getD i none)
  ∧ (∀ j : Nat, j < files.length → files.getD j none = none →
      (encrypt_repo C key patterns lvl rngs true true files).1 = .ok ()
      ∧ CryptError.ioError
          ∈ (encrypt_repo C key patterns lvl rngs true true files).2.2.1)
  ∧ (encrypt_repo C key patterns lvl rngs false true files
       = (.error "Git command failed", files, [], [.addAll]))
  ∧ ((encrypt_repo C key patterns lvl rngs true false files).1
       = .error "Git command failed")
  ∧ (decrypt_repo C key files
       = (.ok (),
          (List.range files.length).map (fun i =>
            match (files.getD i none).map (fun c => decrypt_file C key c) with
            | some (.ok (some x)) => some x
            | _ => files.getD i none),
          ((List.range files.length).map
            (fun i => (files.getD i none).map (fun c => decrypt_file C key c))).filterMap
            (fun r => match r with | some (.error e) => some e | _ => none))) := by
  have hfiles : ∀ fs : List (Option (List Nat)),
      (encrypt_repo C key patterns lvl rngs true true fs).2.1
        = (List.range fs.length).map (fun i =>
            match encryptOne C key lvl (rngs i) (fs.getD i none) with
            | .ok c => some c
            | .error _ => fs.getD i none) := by
    intro fs
    simp only [encrypt_repo, hkey, hpat]
    simp
    intro a ha
    rw [List.getElem?_range ha]
    rfl
  refine ⟨?_, ?_, ?_, by simp [encrypt_repo, hkey, hpat],
    by simp [encrypt_repo, hkey, hpat], ?_⟩
  · simp [encrypt_repo, hkey, hpat]
    intro a ha
    rw [List.getElem?_range ha]
    rfl
  · intro files' i hi hi' hagree
    rw [hfiles files, hfiles files', getD_map_range _ _ _ _ hi,
      getD_map_range _ _ _ _ hi', hagree]
  · intro j hj hnone
    constructor
    · simp [encrypt_repo, hkey, hpat]
    · have hwarn : (encrypt_repo C key patterns lvl rngs true true files).2.2.1
          = ((List.range files.length).map
              (fun i => encryptOne C key lvl (rngs i) (files.getD i none))).filterMap
              (fun r => match r with | .error e => some e | .ok _ => none) := by
        simp [encrypt_repo, hkey, hpat]
      rw [hwarn]
      refine List.mem_filterMap.mpr ⟨.error .ioError, ?_, rfl⟩
      refine List.mem_map.mpr ⟨j, List.mem_range.mpr hj, ?_⟩
      rw [hnone]
      rfl
  · simp [decrypt_repo, hkey]
    intro a ha
    rw [List.getElem?_range ha]
    rfl

/-- C9 witness: a two-file batch whose second file is unreadable still
succeeds as a batch, records the failure as a warning, and a failing
first staging call aborts with nothing processed. -/
theorem C9_batch_isolation_witness :
    (encrypt_repo idCrypto [1] ["p"] 3 (fun _ _ => 0) true true
        [some [1, 2, 3], none]).1 = .ok ()
  ∧ CryptError.ioError
      ∈ (encrypt_repo idCrypto [1] ["p"] 3 (fun _ _ => 0) true true
          [some [1, 2, 3], none]).2.2.1
  ∧ encrypt_repo idCrypto [1] ["p"] 3 (fun _ _ => 0) false true
        [some [1, 2, 3], none]
      = (.error "Git command failed", [some [1, 2, 3], none], [], [.addAll]) := by
  have h := C9_batch_isolation idCrypto [1] ["p"] 3 (fun _ _ => 0)
    [some [1, 2, 3], none] (by decide) (by simp)
  have hfail := h.2.2.1 1 (by decide) rfl
  exact ⟨hfail.1, hfail.2, h.2.2.2.1⟩

/-- C10: with an empty `crypt_list`, `encrypt_repo` fails with "No
pattern to encrypt" before invoking any staging call (empty event
trace), without reading, modifying or encrypting any file (file list
returned unchanged, no warnings). -/
theorem C10_empty_crypt_list (C : Crypto) (key : List Nat) (lvl : Nat)
    (rngs : Nat → Nat → Nat) (a1 a2 : Bool) (files : List (Option (List Nat)))
    (hkey : key ≠ []) :
    encrypt_repo C key [] lvl rngs a1 a2 files
      = (.error "No pattern to encrypt", files, [], []) := by
  simp [encrypt_repo, hkey]

/-- C10 witness: the empty-pattern failure on a concrete repository
state, which is returned untouched. -/
theorem C10_empty_crypt_list_witness :
    encrypt_repo idCrypto [1] [] 3 (fun _ _ => 0) true true [some [1, 2, 3]]
      = (.error "No pattern to encrypt", [some [1, 2, 3]], [], []) :=
  C10_empty_crypt_list idCrypto [1] 3 (fun _ _ => 0) true true [some [1, 2, 3]]
    (by decide)

end GitSimpleEncrypt
